import Mathlib

/-!
# Internals panel (webviz-core/src/panels/Internals.js)

A shallow embedding of the grouping and formatting logic of the Internals panel:
`getSubscriptionGroup`, `getPublisherGroup`, `_renderSubscriptions` and
`_renderPublishers`, together with the lodash and ECMAScript library operations
they call (`groupBy`, `sortBy`, `Object.keys`, `Array.prototype.sort`, template
literals, the relational comparison of strings).

JavaScript strings are sequences of UTF-16 code units, and every comparison the
panel performs is on code units, so a string is modelled as the list of its code
units.
-/

namespace Internals

universe u

/-- A JavaScript string: the sequence of its UTF-16 code units. -/
abbrev JSString := List Nat

/-- The UTF-16 code units of one Unicode scalar value. -/
def utf16Char (c : Char) : List Nat :=
  if c.toNat < 65536 then [c.toNat]
  else [55296 + (c.toNat - 65536) / 1024, 56320 + (c.toNat - 65536) % 1024]

/-- The JavaScript string denoted by a source literal. -/
def utf16 (s : String) : JSString :=
  s.toList.flatMap utf16Char

/-- The requester of a subscription: `{ type, name }`. -/
structure Requester where
  type : JSString
  name : JSString
deriving DecidableEq, Repr

/-- The advertiser of a publisher: `{ type, name }`. -/
structure Advertiser where
  type : JSString
  name : JSString
deriving DecidableEq, Repr

/-- A subscription: `{ topic, requester? }`; `none` is an absent (undefined or null) requester. -/
structure SubscribePayload where
  topic : JSString
  requester : Option Requester
deriving DecidableEq, Repr

/-- A publisher: `{ topic, advertiser? }`; `none` is an absent advertiser. -/
structure AdvertisePayload where
  topic : JSString
  advertiser : Option Advertiser
deriving DecidableEq, Repr

/-- A topic: `{ name, originalTopic? }`; `none` is an undefined `originalTopic`. -/
structure Topic where
  name : JSString
  originalTopic : Option JSString
deriving DecidableEq, Repr

/-- The label of the group a subscription is listed under (source lines 46-62).
The quotation marks of the panel and node labels are U+201C and U+201D. -/
def getSubscriptionGroup (sub : SubscribePayload) : JSString :=
  match sub.requester with
  | none => utf16 "<unknown>"
  | some requester =>
    if requester.type = utf16 "panel" then
      utf16 "Panel “" ++ requester.name ++ utf16 "”"
    else if requester.type = utf16 "node" then
      utf16 "Node “" ++ requester.name ++ utf16 "”"
    else if requester.type = utf16 "other" then
      requester.name
    else
      utf16 "<unknown: " ++ requester.type ++ utf16 " " ++ requester.name ++ utf16 ">"

/-- The label of the group a publisher is listed under (source lines 64-74). -/
def getPublisherGroup (pub : AdvertisePayload) : JSString :=
  match pub.advertiser with
  | none => utf16 "<unknown>"
  | some advertiser =>
    if advertiser.type = utf16 "panel" then
      utf16 "Panel “" ++ advertiser.name ++ utf16 "”"
    else
      utf16 "<unknown: " ++ advertiser.type ++ utf16 " " ++ advertiser.name ++ utf16 ">"

/-- The relational comparison `a < b` of two strings (ECMAScript abstract relational
comparison): a proper prefix is smaller, otherwise the first differing code unit
decides. -/
def strLt : JSString → JSString → Bool
  | [], [] => false
  | [], _ :: _ => true
  | _ :: _, [] => false
  | a :: as, b :: bs => if a < b then true else if b < a then false else strLt as bs

/-- The comparison `a <= b` in the order of `strLt`: `b` is not smaller than `a`. -/
def strLe (a b : JSString) : Bool := !strLt b a

/-- Insertion of `x` into a list ordered by `le`: `x` goes in front of the first
element it is not greater than. -/
def orderedInsert (le : α → α → Bool) (x : α) : List α → List α
  | [] => [x]
  | y :: ys => if le x y then x :: y :: ys else y :: orderedInsert le x ys

/-- A stable sort by `le`: elements that compare equal keep their input order. -/
def stableSort (le : α → α → Bool) : List α → List α
  | [] => []
  | x :: xs => orderedInsert le x (stableSort le xs)

/-- The method `Array.prototype.sort()` without a comparator, on an array of strings:
ascending in the order of `strLt`. -/
def arraySort (array : List JSString) : List JSString :=
  stableSort strLe array

/-- The lodash function `sortBy(collection, iteratee)` for a string-valued iteratee:
a stable sort, ascending in the iteratee value (lodash compares the values with
`<` and `>` and breaks ties by the input index). -/
def sortBy (collection : List α) (iteratee : α → JSString) : List α :=
  stableSort (fun a b => strLe (iteratee a) (iteratee b)) collection

/-- One step of the lodash `groupBy` aggregator: push `value` onto the array stored
under `key`, or store the new array `[value]` under `key`. An object is modelled as
the list of its own properties in insertion order. -/
def groupByAssign (result : List (JSString × List α)) (key : JSString) (value : α) :
    List (JSString × List α) :=
  match result with
  | [] => [(key, [value])]
  | (k, values) :: rest =>
    if k = key then (k, values ++ [value]) :: rest
    else (k, values) :: groupByAssign rest key value

/-- The lodash function `groupBy(collection, iteratee)`. -/
def groupBy (collection : List α) (iteratee : α → JSString) : List (JSString × List α) :=
  collection.foldl (fun result value => groupByAssign result (iteratee value) value) []

/-- The own property of `object` under `key`, if there is one. -/
def getOwn (object : List (JSString × β)) (key : JSString) : Option β :=
  match object with
  | [] => none
  | (k, v) :: rest => if k = key then some v else getOwn rest key

/-- The names of the members of `Object.prototype` (ECMAScript, with the legacy
members of its Annex B): what a plain object inherits. -/
def objectPrototypeMembers : List JSString :=
  [utf16 "constructor", utf16 "hasOwnProperty", utf16 "isPrototypeOf",
   utf16 "propertyIsEnumerable", utf16 "toLocaleString", utf16 "toString",
   utf16 "valueOf", utf16 "__proto__", utf16 "__defineGetter__",
   utf16 "__defineSetter__", utf16 "__lookupGetter__", utf16 "__lookupSetter__"]

/-- The value of a property read on a plain object: an own property, a member
inherited from `Object.prototype` (a function, or `Object.prototype` itself for
`__proto__`: truthy, and not an array), or `undefined`. -/
inductive PropValue (β : Type u) where
  | own (v : β)
  | inherited
  | undefined

/-- The property read `object[key]` on the plain object built by `groupBy`: an own
property shadows an inherited one. -/
def getProp {β : Type u} (object : List (JSString × β)) (key : JSString) : PropValue β :=
  match getOwn object key with
  | some v => .own v
  | none => if key ∈ objectPrototypeMembers then .inherited else .undefined

/-- The elements lodash iterates over when handed the value of a property read: those
of the array; none for `undefined`, and none for an inherited member, which has no
own enumerable property. -/
def asCollection {α : Type u} : PropValue (List α) → List α
  | .own v => v
  | .inherited => []
  | .undefined => []

/-- The function `Object.keys(object)`. The keys are listed in insertion order; both
callers sort the result, so the order in which the keys are listed is immaterial. -/
def objectKeys (object : List (JSString × β)) : List JSString :=
  object.map Prod.fst

/-- The method `Array.prototype.map` with a callback `(element, index)` that may throw. -/
def arrayMapM (callback : α → Nat → Except String β) : Nat → List α → Except String (List β)
  | _, [] => .ok []
  | i, x :: xs =>
    match callback x i with
    | .error e => .error e
    | .ok y =>
      match arrayMapM callback (i + 1) xs with
      | .error e => .error e
      | .ok ys => .ok (y :: ys)

/-- The method `Array.prototype.map` with a callback `(element, index)`. -/
def arrayMap (callback : α → Nat → β) : Nat → List α → List β
  | _, [] => []
  | i, x :: xs => callback x i :: arrayMap callback (i + 1) xs

/-- The value of `${value}` in a template literal: `undefined` is spelled out. -/
def interpolate : Option JSString → JSString
  | none => utf16 "undefined"
  | some s => s

/-- The element `<li key={i}><tt>{topic}{originalTopicText}</tt></li>`; a `none` second
child is `undefined` and renders nothing. -/
structure ListItem where
  key : Nat
  topic : JSString
  originalTopicText : Option JSString
deriving DecidableEq, Repr

/-- The element `<React.Fragment key={key}><p>{key}:</p><ul>{items}</ul></React.Fragment>`;
`heading` is the text of the paragraph. -/
structure Fragment where
  key : JSString
  heading : JSString
  items : List ListItem
deriving DecidableEq, Repr

/-- What a render method returns: a string or an array of fragments. -/
inductive Rendered where
  | text (s : JSString)
  | fragments (fs : List Fragment)
deriving DecidableEq, Repr

/-- The list item of one subscription (source lines 96-102). The guard
`originalTopicsByName[sub.topic] &&` passes on every truthy value: on an array, and
on an inherited member of `Object.prototype`. Reading `[0]` of an inherited member
or of an empty array gives `undefined`, whose property read throws a TypeError. -/
def renderSubscriptionItem (originalTopicsByName : List (JSString × List Topic))
    (sub : SubscribePayload) (i : Nat) : Except String ListItem :=
  match getProp originalTopicsByName sub.topic with
  | .undefined => .ok ⟨i, sub.topic, none⟩
  | .inherited => .error "TypeError"
  | .own [] => .error "TypeError"
  | .own (first :: _) =>
    .ok ⟨i, sub.topic,
      some (utf16 " (original topic: " ++ interpolate first.originalTopic ++ utf16 ")")⟩

/-- The method `_renderSubscriptions` (source lines 80-108). -/
def _renderSubscriptions (topics : List Topic) (subscriptions : List SubscribePayload) :
    Except String Rendered :=
  if subscriptions.length = 0 then
    .ok (.text (utf16 "(none)"))
  else
    let groupedSubscriptions := groupBy subscriptions getSubscriptionGroup
    let originalTopicsByName := groupBy topics (fun topic => topic.name)
    match arrayMapM (fun key _ =>
        match arrayMapM (renderSubscriptionItem originalTopicsByName) 0
            (sortBy (asCollection (getProp groupedSubscriptions key)) (fun sub => sub.topic)) with
        | .error e => .error e
        | .ok items => .ok (Fragment.mk key (key ++ utf16 ":") items))
      0 (arraySort (objectKeys groupedSubscriptions)) with
    | .error e => .error e
    | .ok fs => .ok (.fragments fs)

/-- The method `_renderPublishers` (source lines 110-131). -/
def _renderPublishers (publishers : List AdvertisePayload) : Rendered :=
  if publishers.length = 0 then
    .text (utf16 "(none)")
  else
    let groupedSubscriptions := groupBy publishers getPublisherGroup
    .fragments (arrayMap (fun key _ =>
        Fragment.mk key (key ++ utf16 ":")
          (arrayMap (fun sub i => ListItem.mk i sub.topic none) 0
            (sortBy (asCollection (getProp groupedSubscriptions key)) (fun sub => sub.topic))))
      0 (arraySort (objectKeys groupedSubscriptions)))

/-- Whether the read `originalTopicsByName[name]` yields an inherited member of
`Object.prototype`: `name` is the name of one, and no topic has that name. -/
def readsInherited (topics : List Topic) (name : JSString) : Bool :=
  decide (name ∈ objectPrototypeMembers) &&
    (topics.find? (fun t => decide (t.name = name))).isNone

/-- The text rendered after the topic of a subscription on `name`, read off the topics
list: the text built from the first topic of that name, if there is one. -/
def originalTopicTextOf (topics : List Topic) (name : JSString) : Option JSString :=
  match topics.find? (fun t => decide (t.name = name)) with
  | none => none
  | some first =>
    some (utf16 " (original topic: " ++ interpolate first.originalTopic ++ utf16 ")")

/-- The groups a render method lists: the group labels in sorted order, each with
the items of that label sorted by topic. -/
def groupsOf (items : List α) (label topic : α → JSString) : List (JSString × List α) :=
  (arraySort (objectKeys (groupBy items label))).map
    (fun key => (key, sortBy (items.filter (fun a => decide (label a = key))) topic))

/-- The labels and topic names shown by an array of fragments. -/
def renderedTopics (fs : List Fragment) : List (JSString × List JSString) :=
  fs.map (fun f => (f.key, f.items.map (fun li => li.topic)))

/-- The list `output` is `input` sorted by ascending `key` with a stable sort:
ordered by key, a rearrangement of `input`, and for each key value the elements
with that key are in their input order. -/
def IsStableSortBy (key : α → JSString) (input output : List α) : Prop :=
  output.Pairwise (fun a b => strLe (key a) (key b) = true) ∧
  output.Perm input ∧
  ∀ t, output.filter (fun a => decide (key a = t)) = input.filter (fun a => decide (key a = t))

/-- Example topics: two entries share the name `/a`. -/
def exampleTopics : List Topic :=
  [⟨utf16 "/a", some (utf16 "/orig_a")⟩, ⟨utf16 "/a", some (utf16 "/later_a")⟩]

/-- Example subscriptions: two of a node, one of a panel. -/
def exampleSubscriptions : List SubscribePayload :=
  [⟨utf16 "/b", some ⟨utf16 "node", utf16 "N1"⟩⟩,
   ⟨utf16 "/a", some ⟨utf16 "node", utf16 "N1"⟩⟩,
   ⟨utf16 "/a", some ⟨utf16 "panel", utf16 "P"⟩⟩]

/-! ## The order of strings -/

theorem strLt_irrefl (a : JSString) : strLt a a = false := by
  induction a with
  | nil => rfl
  | cons x xs ih => simp [strLt, ih]

theorem strLt_asymm : ∀ a b : JSString, strLt a b = true → strLt b a = false
  | [], [], h => by simp [strLt] at h
  | [], _ :: _, _ => by simp [strLt]
  | _ :: _, [], h => by simp [strLt] at h
  | x :: xs, y :: ys, h => by
    simp only [strLt] at h ⊢
    by_cases h1 : x < y
    · have h2 : ¬ y < x := by omega
      simp [h2, h1]
    · by_cases h2 : y < x
      · simp [h1, h2] at h
      · simp only [h1, h2, if_false] at h ⊢
        exact strLt_asymm xs ys h

theorem strLt_trans : ∀ a b c : JSString, strLt a b = true → strLt b c = true → strLt a c = true
  | [], _, [], _, h2 => by cases ‹JSString› <;> simp [strLt] at h2
  | [], _, _ :: _, _, _ => by simp [strLt]
  | _ :: _, [], _, h1, _ => by simp [strLt] at h1
  | _ :: _, _ :: _, [], _, h2 => by simp [strLt] at h2
  | x :: xs, y :: ys, z :: zs, h1, h2 => by
    simp only [strLt] at h1 h2 ⊢
    by_cases hxy : x < y
    · by_cases hyz : y < z
      · have : x < z := by omega
        simp [this]
      · by_cases hzy : z < y
        · simp [hyz, hzy] at h2
        · have : x < z := by omega
          simp [this]
    · by_cases hyx : y < x
      · simp [hxy, hyx] at h1
      · simp only [hxy, hyx, if_false] at h1
        have hxy2 : x = y := by omega
        subst hxy2
        by_cases hxz : x < z
        · simp [hxz]
        · by_cases hzx : z < x
          · simp [hxz, hzx] at h2
          · simp only [hxz, hzx, if_false] at h2 ⊢
            exact strLt_trans xs ys zs h1 h2

theorem strLt_trichotomy : ∀ a b : JSString, strLt a b = false → strLt b a = false → a = b
  | [], [], _, _ => rfl
  | [], _ :: _, h, _ => by simp [strLt] at h
  | _ :: _, [], _, h => by simp [strLt] at h
  | x :: xs, y :: ys, h1, h2 => by
    simp only [strLt] at h1 h2
    by_cases hxy : x < y
    · simp [hxy] at h1
    · by_cases hyx : y < x
      · simp [hyx] at h2
      · simp only [hxy, hyx, if_false] at h1 h2
        have : x = y := by omega
        rw [this, strLt_trichotomy xs ys h1 h2]

theorem strLe_refl (a : JSString) : strLe a a = true := by
  simp [strLe, strLt_irrefl]

theorem strLe_total (a b : JSString) : strLe a b = true ∨ strLe b a = true := by
  unfold strLe
  cases h : strLt b a
  · simp
  · simp [strLt_asymm b a h]

theorem strLe_of_strLt {a b : JSString} (h : strLt a b = true) : strLe a b = true := by
  simp [strLe, strLt_asymm a b h]

theorem strLt_of_strLe_of_ne {a b : JSString} (h : strLe a b = true) (hne : a ≠ b) :
    strLt a b = true := by
  cases hab : strLt a b
  · exact absurd (strLt_trichotomy a b hab (by simpa [strLe] using h)) hne
  · rfl

theorem strLe_trans {a b c : JSString} (h1 : strLe a b = true) (h2 : strLe b c = true) :
    strLe a c = true := by
  by_cases hab : a = b
  · subst hab; exact h2
  · by_cases hbc : b = c
    · subst hbc; exact h1
    · exact strLe_of_strLt
        (strLt_trans a b c (strLt_of_strLe_of_ne h1 hab) (strLt_of_strLe_of_ne h2 hbc))

/-! ## The stable sort -/

theorem orderedInsert_perm (le : α → α → Bool) (x : α) (l : List α) :
    (orderedInsert le x l).Perm (x :: l) := by
  induction l with
  | nil => exact List.Perm.refl _
  | cons y ys ih =>
    unfold orderedInsert
    split
    · exact List.Perm.refl _
    · exact (List.Perm.cons y ih).trans (List.Perm.swap x y ys)

theorem stableSort_perm (le : α → α → Bool) (l : List α) : (stableSort le l).Perm l := by
  induction l with
  | nil => exact List.Perm.refl _
  | cons x xs ih =>
    exact (orderedInsert_perm le x (stableSort le xs)).trans (List.Perm.cons x ih)

theorem orderedInsert_pairwise (le : α → α → Bool)
    (total : ∀ a b, le a b = true ∨ le b a = true)
    (trans : ∀ a b c, le a b = true → le b c = true → le a c = true)
    (x : α) (l : List α) (h : l.Pairwise (fun a b => le a b = true)) :
    (orderedInsert le x l).Pairwise (fun a b => le a b = true) := by
  induction l with
  | nil => simp [orderedInsert]
  | cons y ys ih =>
    rw [List.pairwise_cons] at h
    unfold orderedInsert
    split
    · rename_i hxy
      refine List.Pairwise.cons ?_ (List.Pairwise.cons h.1 h.2)
      intro z hz
      rcases List.mem_cons.1 hz with rfl | hz
      · exact hxy
      · exact trans _ _ _ hxy (h.1 z hz)
    · rename_i hxy
      refine List.Pairwise.cons ?_ (ih h.2)
      intro z hz
      rcases List.mem_cons.1 ((orderedInsert_perm le x ys).mem_iff.1 hz) with rfl | hz
      · exact (total z y).resolve_left hxy
      · exact h.1 z hz

theorem stableSort_pairwise (le : α → α → Bool)
    (total : ∀ a b, le a b = true ∨ le b a = true)
    (trans : ∀ a b c, le a b = true → le b c = true → le a c = true)
    (l : List α) : (stableSort le l).Pairwise (fun a b => le a b = true) := by
  induction l with
  | nil => exact List.Pairwise.nil
  | cons x xs ih => exact orderedInsert_pairwise le total trans x _ ih

theorem orderedInsert_filter (f : α → JSString) (t : JSString) (x : α) (l : List α) :
    (orderedInsert (fun a b => strLe (f a) (f b)) x l).filter (fun a => decide (f a = t))
      = (x :: l).filter (fun a => decide (f a = t)) := by
  induction l with
  | nil => rfl
  | cons y ys ih =>
    unfold orderedInsert
    split
    · rfl
    · rename_i hxy
      have hne : f x ≠ f y := by
        intro h
        rw [h] at hxy
        exact hxy (strLe_refl _)
      rw [List.filter_cons, ih]
      by_cases hx : f x = t
      · have hy : ¬ f y = t := fun hy => hne (hx.trans hy.symm)
        simp [List.filter_cons, hx, hy]
      · simp [List.filter_cons, hx]

theorem sortBy_perm (l : List α) (f : α → JSString) : (sortBy l f).Perm l :=
  stableSort_perm _ l

theorem sortBy_pairwise (l : List α) (f : α → JSString) :
    (sortBy l f).Pairwise (fun a b => strLe (f a) (f b) = true) :=
  stableSort_pairwise _ (fun a b => strLe_total (f a) (f b))
    (fun _ _ _ h1 h2 => strLe_trans h1 h2) l

theorem sortBy_filter (l : List α) (f : α → JSString) (t : JSString) :
    (sortBy l f).filter (fun a => decide (f a = t)) = l.filter (fun a => decide (f a = t)) := by
  induction l with
  | nil => rfl
  | cons x xs ih =>
    show (orderedInsert _ x (sortBy xs f)).filter _ = _
    rw [orderedInsert_filter, List.filter_cons, List.filter_cons, ih]

theorem arraySort_perm (l : List JSString) : (arraySort l).Perm l :=
  stableSort_perm _ l

theorem arraySort_pairwise_strLt (l : List JSString) (h : l.Nodup) :
    (arraySort l).Pairwise (fun a b => strLt a b = true) := by
  have hle : (arraySort l).Pairwise (fun a b => strLe a b = true) :=
    stableSort_pairwise _ strLe_total (fun _ _ _ h1 h2 => strLe_trans h1 h2) l
  have hnd : (arraySort l).Nodup := (arraySort_perm l).nodup_iff.2 h
  exact (hle.and hnd).imp (fun hab => strLt_of_strLe_of_ne hab.1 hab.2)

/-- Sorting a duplicate-free array of keys gives the same result whatever order the
keys are listed in: the order in which `Object.keys` enumerates does not matter. -/
theorem arraySort_eq_of_perm (l₁ l₂ : List JSString) (h : l₁.Perm l₂) (hnd : l₁.Nodup) :
    arraySort l₁ = arraySort l₂ := by
  haveI : IsAntisymm JSString (fun a b => strLt a b = true) :=
    ⟨fun a b h1 h2 => by rw [strLt_asymm a b h1] at h2; cases h2⟩
  exact List.eq_of_perm_of_sorted
    ((arraySort_perm l₁).trans (h.trans (arraySort_perm l₂).symm))
    (arraySort_pairwise_strLt l₁ hnd) (arraySort_pairwise_strLt l₂ (h.nodup_iff.1 hnd))

/-! ## Grouping -/

theorem getOwn_groupByAssign (r : List (JSString × List α)) (k : JSString) (v : α)
    (q : JSString) :
    getOwn (groupByAssign r k v) q
      = if q = k then some ((getOwn r k).getD [] ++ [v]) else getOwn r q := by
  induction r with
  | nil =>
    by_cases h : q = k
    · simp [groupByAssign, getOwn, h]
    · have h2 : ¬ k = q := fun e => h e.symm
      simp [groupByAssign, getOwn, h, h2]
  | cons p rest ih =>
    obtain ⟨k0, vs⟩ := p
    by_cases h0 : k0 = k
    · subst h0
      by_cases h : q = k0
      · simp [groupByAssign, getOwn, h]
      · have h2 : ¬ k0 = q := fun e => h e.symm
        simp [groupByAssign, getOwn, h, h2]
    · by_cases h : q = k
      · subst h
        simp [groupByAssign, getOwn, h0, ih]
      · by_cases h3 : k0 = q
        · simp [groupByAssign, getOwn, h0, h, h3]
        · simp [groupByAssign, getOwn, h0, h, h3, ih]

theorem objectKeys_groupByAssign (r : List (JSString × List α)) (k : JSString) (v : α) :
    objectKeys (groupByAssign r k v)
      = if k ∈ objectKeys r then objectKeys r else objectKeys r ++ [k] := by
  induction r with
  | nil => simp [groupByAssign, objectKeys]
  | cons p rest ih =>
    obtain ⟨k0, vs⟩ := p
    by_cases h0 : k0 = k
    · subst h0
      simp [groupByAssign, objectKeys]
    · have h1 : ¬ k = k0 := fun e => h0 e.symm
      unfold objectKeys at ih
      by_cases hk : k ∈ List.map Prod.fst rest
      · simp [groupByAssign, objectKeys, h0, h1, ih, hk]
      · simp [groupByAssign, objectKeys, h0, h1, ih, hk]

theorem groupBy_append_singleton (xs : List α) (x : α) (f : α → JSString) :
    groupBy (xs ++ [x]) f = groupByAssign (groupBy xs f) (f x) x := by
  simp [groupBy, List.foldl_append]

theorem getD_getOwn_groupBy (xs : List α) (f : α → JSString) (k : JSString) :
    (getOwn (groupBy xs f) k).getD [] = xs.filter (fun a => decide (f a = k)) := by
  induction xs using List.reverseRecOn generalizing k with
  | nil => rfl
  | append_singleton xs x ih =>
    rw [groupBy_append_singleton, getOwn_groupByAssign, List.filter_append]
    by_cases h : k = f x
    · subst h
      simp [ih]
    · have h2 : ¬ f x = k := fun e => h e.symm
      simp [h, h2, ih]

theorem getOwn_groupBy_eq_none (xs : List α) (f : α → JSString) (k : JSString) :
    getOwn (groupBy xs f) k = none ↔ ∀ x ∈ xs, f x ≠ k := by
  induction xs using List.reverseRecOn generalizing k with
  | nil => simp [groupBy, getOwn]
  | append_singleton xs x ih =>
    rw [groupBy_append_singleton, getOwn_groupByAssign]
    by_cases h : k = f x
    · subst h
      simp only [if_true, reduceCtorEq, false_iff, not_forall]
      exact ⟨x, by simp, fun hne => hne rfl⟩
    · have h2 : ¬ f x = k := fun e => h e.symm
      rw [if_neg h, ih]
      constructor
      · intro hall y hy
        rcases List.mem_append.1 hy with hy | hy
        · exact hall y hy
        · rw [List.mem_singleton] at hy
          subst hy
          exact h2
      · intro hall y hy
        exact hall y (List.mem_append_left _ hy)

theorem getOwn_groupBy (xs : List α) (f : α → JSString) (k : JSString) (l : List α)
    (h : getOwn (groupBy xs f) k = some l) : l = xs.filter (fun a => decide (f a = k)) := by
  rw [← getD_getOwn_groupBy, h]
  rfl

theorem mem_objectKeys_groupBy (xs : List α) (f : α → JSString) (k : JSString) :
    k ∈ objectKeys (groupBy xs f) ↔ ∃ x ∈ xs, f x = k := by
  induction xs using List.reverseRecOn with
  | nil => simp [groupBy, objectKeys]
  | append_singleton xs x ih =>
    rw [groupBy_append_singleton, objectKeys_groupByAssign]
    by_cases hk : f x ∈ objectKeys (groupBy xs f)
    · rw [if_pos hk, ih]
      constructor
      · rintro ⟨y, hy, e⟩
        exact ⟨y, List.mem_append_left _ hy, e⟩
      · rintro ⟨y, hy, e⟩
        rcases List.mem_append.1 hy with hy | hy
        · exact ⟨y, hy, e⟩
        · rw [List.mem_singleton] at hy
          subst hy
          subst e
          exact ih.1 hk
    · rw [if_neg hk, List.mem_append, ih, List.mem_singleton]
      constructor
      · rintro (⟨y, hy, e⟩ | e)
        · exact ⟨y, List.mem_append_left _ hy, e⟩
        · exact ⟨x, by simp, e.symm⟩
      · rintro ⟨y, hy, e⟩
        rcases List.mem_append.1 hy with hy | hy
        · exact Or.inl ⟨y, hy, e⟩
        · rw [List.mem_singleton] at hy
          subst hy
          exact Or.inr e.symm

theorem nodup_objectKeys_groupBy (xs : List α) (f : α → JSString) :
    (objectKeys (groupBy xs f)).Nodup := by
  induction xs using List.reverseRecOn with
  | nil => simp [groupBy, objectKeys]
  | append_singleton xs x ih =>
    rw [groupBy_append_singleton, objectKeys_groupByAssign]
    by_cases hk : f x ∈ objectKeys (groupBy xs f)
    · rw [if_pos hk]
      exact ih
    · rw [if_neg hk]
      exact List.Nodup.append ih (List.nodup_singleton _) (by simpa using hk)

/-- Partitioning a list by a key, over a duplicate-free list of keys that covers the
keys of all its elements, rearranges the list. -/
theorem flatMap_filter_perm (f : α → JSString) (ks : List JSString) (hnd : ks.Nodup)
    (l : List α) (hcover : ∀ x ∈ l, f x ∈ ks) :
    (ks.flatMap (fun k => l.filter (fun a => decide (f a = k)))).Perm l := by
  induction ks generalizing l with
  | nil =>
    cases l with
    | nil => exact List.Perm.refl _
    | cons x xs => exact absurd (hcover x (List.mem_cons_self _ _)) (List.not_mem_nil _)
  | cons k ks ih =>
    rw [List.nodup_cons] at hnd
    rw [List.flatMap_cons]
    have hrest : ks.flatMap (fun q => l.filter (fun a => decide (f a = q)))
        = ks.flatMap (fun q => (l.filter (fun a => !decide (f a = k))).filter
            (fun a => decide (f a = q))) := by
      apply List.flatMap_congr
      intro q hq
      rw [List.filter_filter]
      apply List.filter_congr
      intro a _
      by_cases haq : f a = q
      · subst haq
        have : ¬ f a = k := fun e => hnd.1 (e ▸ hq)
        simp [this]
      · simp [haq]
    rw [hrest]
    refine (List.Perm.append_left _ (ih hnd.2 _ ?_)).trans (List.filter_append_perm _ l)
    intro x hx
    rw [List.mem_filter] at hx
    rcases List.mem_cons.1 (hcover x hx.1) with e | hmem
    · simp [e] at hx
    · exact hmem

/-! ## Rendering -/

theorem arrayMapM_ok (f : α → Nat → Except String β) (g : α → Nat → β) (l : List α)
    (h : ∀ x ∈ l, ∀ j, f x j = .ok (g x j)) (i : Nat) :
    arrayMapM f i l = .ok (arrayMap g i l) := by
  induction l generalizing i with
  | nil => rfl
  | cons x xs ih =>
    have hx := h x (List.mem_cons_self _ _) i
    have hxs := ih (fun y hy j => h y (List.mem_cons_of_mem _ hy) j) (i + 1)
    simp only [arrayMapM, arrayMap, hx, hxs]

theorem arrayMap_const_index (g : α → β) (l : List α) (i : Nat) :
    arrayMap (fun x _ => g x) i l = l.map g := by
  induction l generalizing i with
  | nil => rfl
  | cons x xs ih => simp only [arrayMap, List.map_cons, ih]

theorem arrayMap_map (g : α → Nat → β) (p : β → γ) (q : α → γ)
    (h : ∀ x j, p (g x j) = q x) (l : List α) (i : Nat) :
    (arrayMap g i l).map p = l.map q := by
  induction l generalizing i with
  | nil => rfl
  | cons x xs ih => simp only [arrayMap, List.map_cons, ih, h]

theorem head?_filter_eq_find? (p : α → Bool) (l : List α) :
    (l.filter p).head? = l.find? p := by
  induction l with
  | nil => rfl
  | cons x xs ih =>
    cases hp : p x
    · simp [List.filter_cons, List.find?_cons, hp, ih]
    · simp [List.filter_cons, List.find?_cons, hp]

theorem arrayMapM_ok_or_error (f : α → Nat → Except String β) (e : String) (l : List α)
    (hall : ∀ x ∈ l, ∀ j, f x j = .error e ∨ ∃ y, f x j = .ok y) (i : Nat) :
    arrayMapM f i l = .error e ∨ ∃ ys, arrayMapM f i l = .ok ys := by
  induction l generalizing i with
  | nil => exact Or.inr ⟨[], rfl⟩
  | cons x xs ih =>
    rcases hall x (List.mem_cons_self _ _) i with hx | ⟨y, hx⟩
    · left
      simp only [arrayMapM, hx]
    · rcases ih (fun z hz j => hall z (List.mem_cons_of_mem _ hz) j) (i + 1) with hxs | ⟨ys, hxs⟩
      · left
        simp only [arrayMapM, hx, hxs]
      · right
        exact ⟨y :: ys, by simp only [arrayMapM, hx, hxs]⟩

theorem arrayMapM_error (f : α → Nat → Except String β) (e : String) (l : List α)
    (hall : ∀ x ∈ l, ∀ j, f x j = .error e ∨ ∃ y, f x j = .ok y)
    (hex : ∃ x ∈ l, ∀ j, f x j = .error e) (i : Nat) :
    arrayMapM f i l = .error e := by
  induction l generalizing i with
  | nil =>
    obtain ⟨x, hx, _⟩ := hex
    cases hx
  | cons x xs ih =>
    rcases hall x (List.mem_cons_self _ _) i with hx | ⟨y, hx⟩
    · simp only [arrayMapM, hx]
    · have hex2 : ∃ z ∈ xs, ∀ j, f z j = .error e := by
        obtain ⟨z, hz, hzerr⟩ := hex
        rcases List.mem_cons.1 hz with rfl | hz
        · rw [hzerr i] at hx
          cases hx
        · exact ⟨z, hz, hzerr⟩
      have hxs := ih (fun z hz j => hall z (List.mem_cons_of_mem _ hz) j) hex2 (i + 1)
      simp only [arrayMapM, hx, hxs]

theorem asCollection_getProp_groupBy (xs : List α) (f : α → JSString) (k : JSString) :
    asCollection (getProp (groupBy xs f) k) = xs.filter (fun a => decide (f a = k)) := by
  have h := getD_getOwn_groupBy xs f k
  unfold getProp
  cases hg : getOwn (groupBy xs f) k with
  | none =>
    rw [hg] at h
    by_cases hmem : k ∈ objectPrototypeMembers
    · simp only [if_pos hmem, asCollection]
      exact h
    · simp only [if_neg hmem, asCollection]
      exact h
  | some l =>
    rw [hg] at h
    exact h

theorem renderSubscriptionItem_groupBy (topics : List Topic) (sub : SubscribePayload)
    (i : Nat) :
    renderSubscriptionItem (groupBy topics (fun topic => topic.name)) sub i
      = if readsInherited topics sub.topic = true then .error "TypeError"
        else .ok ⟨i, sub.topic, originalTopicTextOf topics sub.topic⟩ := by
  unfold renderSubscriptionItem getProp readsInherited originalTopicTextOf
  cases hg : getOwn (groupBy topics (fun topic => topic.name)) sub.topic with
  | none =>
    have hall := (getOwn_groupBy_eq_none _ _ _).1 hg
    have hfind : topics.find? (fun t => decide (t.name = sub.topic)) = none := by
      rw [List.find?_eq_none]
      intro x hx
      simpa using hall x hx
    by_cases hmem : sub.topic ∈ objectPrototypeMembers
    · simp [hfind, hmem]
    · simp [hfind, hmem]
  | some l =>
    have hl := getOwn_groupBy _ _ _ _ hg
    have hhead := head?_filter_eq_find? (fun t : Topic => decide (t.name = sub.topic)) topics
    rw [← hl] at hhead
    cases l with
    | nil =>
      exfalso
      have hnone : getOwn (groupBy topics (fun topic => topic.name)) sub.topic = none := by
        rw [getOwn_groupBy_eq_none]
        intro x hx
        have := List.filter_eq_nil_iff.1 hl.symm x hx
        simpa using this
      rw [hnone] at hg
      cases hg
    | cons first rest =>
      simp only [List.head?_cons] at hhead
      simp [← hhead]

theorem renderSubscriptions_eq (topics : List Topic) (subs : List SubscribePayload)
    (h : subs ≠ []) (hsafe : ∀ sub ∈ subs, readsInherited topics sub.topic = false) :
    _renderSubscriptions topics subs
      = .ok (.fragments ((groupsOf subs getSubscriptionGroup (fun sub => sub.topic)).map
          (fun g => Fragment.mk g.1 (g.1 ++ utf16 ":")
            (arrayMap (fun sub i => ListItem.mk i sub.topic
              (originalTopicTextOf topics sub.topic)) 0 g.2)))) := by
  have hlen : ¬ subs.length = 0 := fun e => h (List.length_eq_zero.1 e)
  unfold _renderSubscriptions
  rw [if_neg hlen]
  simp only
  rw [arrayMapM_ok _ (fun key _ => Fragment.mk key (key ++ utf16 ":")
      (arrayMap (fun sub i => ListItem.mk i sub.topic
        (originalTopicTextOf topics sub.topic)) 0
        (sortBy (subs.filter (fun a => decide (getSubscriptionGroup a = key)))
          (fun sub => sub.topic))))]
  · simp only [arrayMap_const_index, groupsOf, List.map_map]
    rfl
  · intro key _ j
    rw [asCollection_getProp_groupBy, arrayMapM_ok _ (fun sub i => ListItem.mk i sub.topic
        (originalTopicTextOf topics sub.topic))]
    intro sub hsub i
    have hmem : sub ∈ subs :=
      (List.mem_filter.1 ((sortBy_perm _ _).mem_iff.1 hsub)).1
    rw [renderSubscriptionItem_groupBy, hsafe sub hmem]
    rfl

theorem renderSubscriptions_throws (topics : List Topic) (subs : List SubscribePayload)
    (hex : ∃ sub ∈ subs, readsInherited topics sub.topic = true) :
    _renderSubscriptions topics subs = .error "TypeError" := by
  obtain ⟨bad, hbad, hread⟩ := hex
  have hlen : ¬ subs.length = 0 := fun e => by
    rw [List.length_eq_zero.1 e] at hbad
    cases hbad
  have hitem : ∀ (sub : SubscribePayload) (j : Nat),
      renderSubscriptionItem (groupBy topics (fun topic => topic.name)) sub j
          = .error "TypeError" ∨
        ∃ y, renderSubscriptionItem (groupBy topics (fun topic => topic.name)) sub j
          = .ok y := by
    intro sub j
    rw [renderSubscriptionItem_groupBy]
    cases readsInherited topics sub.topic
    · exact Or.inr ⟨_, rfl⟩
    · exact Or.inl rfl
  unfold _renderSubscriptions
  rw [if_neg hlen]
  simp only
  rw [arrayMapM_error _ "TypeError"]
  · intro key _ j
    rcases arrayMapM_ok_or_error
        (renderSubscriptionItem (groupBy topics (fun topic => topic.name))) "TypeError"
        (sortBy (asCollection (getProp (groupBy subs getSubscriptionGroup) key))
          (fun sub => sub.topic))
        (fun sub _ j => hitem sub j) 0 with he | ⟨ys, he⟩
    · left
      simp only [he]
    · right
      exact ⟨Fragment.mk key (key ++ utf16 ":") ys, by simp only [he]⟩
  · refine ⟨getSubscriptionGroup bad, ?_, ?_⟩
    · rw [(arraySort_perm _).mem_iff, mem_objectKeys_groupBy]
      exact ⟨bad, hbad, rfl⟩
    · intro j
      rw [arrayMapM_error _ "TypeError" _ (fun sub _ j => hitem sub j)]
      refine ⟨bad, ?_, ?_⟩
      · rw [asCollection_getProp_groupBy, (sortBy_perm _ _).mem_iff, List.mem_filter]
        exact ⟨hbad, by simp⟩
      · intro j
        rw [renderSubscriptionItem_groupBy, if_pos hread]

theorem renderPublishers_eq (pubs : List AdvertisePayload) (h : pubs ≠ []) :
    _renderPublishers pubs
      = .fragments ((groupsOf pubs getPublisherGroup (fun sub => sub.topic)).map
          (fun g => Fragment.mk g.1 (g.1 ++ utf16 ":")
            (arrayMap (fun sub i => ListItem.mk i sub.topic none) 0 g.2))) := by
  have hlen : ¬ pubs.length = 0 := fun e => h (List.length_eq_zero.1 e)
  unfold _renderPublishers
  rw [if_neg hlen]
  simp only [arrayMap_const_index, groupsOf, List.map_map, asCollection_getProp_groupBy]
  rfl

/-! ## The groups of a render method -/

theorem groupsOf_map_fst (items : List α) (label topic : α → JSString) :
    (groupsOf items label topic).map Prod.fst = arraySort (objectKeys (groupBy items label)) := by
  simp [groupsOf, List.map_map, Function.comp_def]

theorem groupsOf_keys_pairwise (items : List α) (label topic : α → JSString) :
    ((groupsOf items label topic).map Prod.fst).Pairwise (fun a b => strLt a b = true) := by
  rw [groupsOf_map_fst]
  exact arraySort_pairwise_strLt _ (nodup_objectKeys_groupBy items label)

theorem groupsOf_keys_nodup (items : List α) (label topic : α → JSString) :
    ((groupsOf items label topic).map Prod.fst).Nodup := by
  rw [groupsOf_map_fst]
  exact (arraySort_perm _).nodup_iff.2 (nodup_objectKeys_groupBy items label)

theorem mem_groupsOf_keys (items : List α) (label topic : α → JSString) (k : JSString) :
    k ∈ (groupsOf items label topic).map Prod.fst ↔ ∃ x ∈ items, label x = k := by
  rw [groupsOf_map_fst, (arraySort_perm _).mem_iff, mem_objectKeys_groupBy]

theorem mem_groupsOf (items : List α) (label topic : α → JSString) (g : JSString × List α)
    (h : g ∈ groupsOf items label topic) :
    g.2 = sortBy (items.filter (fun a => decide (label a = g.1))) topic := by
  unfold groupsOf at h
  rw [List.mem_map] at h
  obtain ⟨k, _, rfl⟩ := h
  rfl

theorem groupsOf_stable (items : List α) (label topic : α → JSString) (g : JSString × List α)
    (h : g ∈ groupsOf items label topic) :
    IsStableSortBy topic (items.filter (fun a => decide (label a = g.1))) g.2 := by
  rw [mem_groupsOf items label topic g h]
  exact ⟨sortBy_pairwise _ _, sortBy_perm _ _, sortBy_filter _ _⟩

theorem groupsOf_label (items : List α) (label topic : α → JSString) (g : JSString × List α)
    (h : g ∈ groupsOf items label topic) (x : α) (hx : x ∈ g.2) : label x = g.1 := by
  rw [mem_groupsOf items label topic g h, (sortBy_perm _ _).mem_iff, List.mem_filter] at hx
  simpa using hx.2

theorem groupsOf_group_ne_nil (items : List α) (label topic : α → JSString)
    (g : JSString × List α) (h : g ∈ groupsOf items label topic) : g.2 ≠ [] := by
  obtain ⟨x, hx, hl⟩ := (mem_groupsOf_keys items label topic g.1).1 (List.mem_map_of_mem _ h)
  have hmem : x ∈ g.2 := by
    rw [mem_groupsOf items label topic g h, (sortBy_perm _ _).mem_iff, List.mem_filter]
    exact ⟨hx, by simpa using hl⟩
  exact List.ne_nil_of_mem hmem

theorem groupsOf_ne_nil (items : List α) (label topic : α → JSString) (h : items ≠ []) :
    groupsOf items label topic ≠ [] := by
  obtain ⟨x, xs, rfl⟩ := List.exists_cons_of_ne_nil h
  have hk : label x ∈ (groupsOf (x :: xs) label topic).map Prod.fst :=
    (mem_groupsOf_keys _ label topic _).2 ⟨x, List.mem_cons_self _ _, rfl⟩
  intro e
  rw [e] at hk
  cases hk

theorem groupsOf_flatMap_perm (items : List α) (label topic : α → JSString) :
    ((groupsOf items label topic).flatMap Prod.snd).Perm items := by
  have h1 : (groupsOf items label topic).flatMap Prod.snd
      = (arraySort (objectKeys (groupBy items label))).flatMap
          (fun key => sortBy (items.filter (fun a => decide (label a = key))) topic) := by
    simp [groupsOf, List.flatMap, List.map_map, Function.comp_def]
  rw [h1]
  refine (List.Perm.flatMap_left _ (fun k _ => sortBy_perm _ topic)).trans ?_
  refine flatMap_filter_perm label _ ((arraySort_perm _).nodup_iff.2
    (nodup_objectKeys_groupBy items label)) items ?_
  intro x hx
  rw [(arraySort_perm _).mem_iff, mem_objectKeys_groupBy]
  exact ⟨x, hx, rfl⟩

theorem renderedTopics_map (groups : List (JSString × List α)) (topic : α → JSString)
    (text : α → Option JSString) :
    renderedTopics (groups.map (fun g => Fragment.mk g.1 (g.1 ++ utf16 ":")
        (arrayMap (fun sub i => ListItem.mk i (topic sub) (text sub)) 0 g.2)))
      = groups.map (fun g => (g.1, g.2.map topic)) := by
  unfold renderedTopics
  rw [List.map_map]
  apply List.map_congr_left
  intro g _
  simp only [Function.comp_def]
  rw [arrayMap_map (fun sub i => ListItem.mk i (topic sub) (text sub))
    (fun li => li.topic) topic (fun _ _ => rfl)]

theorem mem_arrayMap (g : α → Nat → β) (l : List α) (i : Nat) (y : β)
    (h : y ∈ arrayMap g i l) : ∃ x ∈ l, ∃ j, y = g x j := by
  induction l generalizing i with
  | nil => cases h
  | cons x xs ih =>
    rcases List.mem_cons.1 h with e | h
    · exact ⟨x, List.mem_cons_self _ _, i, e⟩
    · obtain ⟨z, hz, j, e⟩ := ih (i + 1) h
      exact ⟨z, List.mem_cons_of_mem _ hz, j, e⟩

theorem arrayMap_ne_nil (g : α → Nat → β) (l : List α) (i : Nat) (h : l ≠ []) :
    arrayMap g i l ≠ [] := by
  cases l with
  | nil => exact absurd rfl h
  | cons x xs => simp [arrayMap]

theorem renderSubscriptions_nil (topics : List Topic) :
    _renderSubscriptions topics [] = .ok (.text (utf16 "(none)")) := rfl

theorem originalTopicTextOf_first (pre post : List Topic) (x : Topic)
    (h : ∀ t ∈ pre, t.name ≠ x.name) :
    originalTopicTextOf (pre ++ x :: post) x.name
      = some (utf16 " (original topic: " ++ interpolate x.originalTopic ++ utf16 ")") := by
  have hpre : pre.find? (fun t => decide (t.name = x.name)) = none := by
    rw [List.find?_eq_none]
    intro t ht
    simpa using h t ht
  simp [originalTopicTextOf, List.find?_append, hpre, List.find?_cons]

theorem find?_filter_of_imp (p q : α → Bool) (h : ∀ a, p a = true → q a = true)
    (l : List α) : (l.filter q).find? p = l.find? p := by
  induction l with
  | nil => rfl
  | cons x xs ih =>
    cases hq : q x
    · have hp : p x = false := by
        cases hp : p x
        · rfl
        · rw [h x hp] at hq
          cases hq
      simp [List.filter_cons, List.find?_cons, hq, hp, ih]
    · simp [List.filter_cons, List.find?_cons, hq, ih]

theorem mem_arrayMap_of_mem (g : α → Nat → β) (l : List α) (i : Nat) (x : α)
    (h : x ∈ l) : ∃ j, g x j ∈ arrayMap g i l := by
  induction l generalizing i with
  | nil => cases h
  | cons y ys ih =>
    rcases List.mem_cons.1 h with rfl | h
    · exact ⟨i, List.mem_cons_self _ _⟩
    · obtain ⟨j, hj⟩ := ih (i + 1) h
      exact ⟨j, List.mem_cons_of_mem _ hj⟩

theorem interpolate_eq_getD (o : Option JSString) :
    interpolate o = o.getD (utf16 "undefined") := by
  cases o <;> rfl

theorem find?_later (pre post : List Topic) (x : Topic) (n : JSString) :
    (pre ++ x :: post.filter (fun t => decide (t.name ≠ x.name))).find?
        (fun t => decide (t.name = n))
      = (pre ++ x :: post).find? (fun t => decide (t.name = n)) := by
  by_cases hx : x.name = n
  · simp [List.find?_append, List.find?_cons, hx]
  · have hfind : (post.filter (fun t => decide (t.name ≠ x.name))).find?
          (fun t => decide (t.name = n)) = post.find? (fun t => decide (t.name = n)) := by
      apply find?_filter_of_imp
      intro a ha
      have ha2 : a.name = n := by simpa using ha
      have : ¬ a.name = x.name := fun e => hx (e.symm.trans ha2)
      simpa using this
    simp only [List.find?_append, List.find?_cons, hfind]

theorem renderSubscriptionItem_later (pre post : List Topic) (x : Topic) :
    renderSubscriptionItem
        (groupBy (pre ++ x :: post.filter (fun t => decide (t.name ≠ x.name)))
          (fun topic => topic.name))
      = renderSubscriptionItem (groupBy (pre ++ x :: post) (fun topic => topic.name)) := by
  funext sub i
  rw [renderSubscriptionItem_groupBy, renderSubscriptionItem_groupBy]
  simp only [readsInherited, originalTopicTextOf, find?_later]

/-- The render method returns its fragments exactly on the non-empty inputs where no
subscription topic reads an inherited member. -/
theorem renderSubscriptions_ok (topics : List Topic) (subs : List SubscribePayload)
    (fs : List Fragment) (h : _renderSubscriptions topics subs = .ok (.fragments fs)) :
    subs ≠ [] ∧ ∀ sub ∈ subs, readsInherited topics sub.topic = false := by
  constructor
  · rintro rfl
    cases h
  · intro sub hsub
    cases hread : readsInherited topics sub.topic
    · rfl
    · rw [renderSubscriptions_throws topics subs ⟨sub, hsub, hread⟩] at h
      cases h

/-- What `_renderSubscriptions` lists when it returns: group by group the input
subscriptions of each label, sorted by topic with a stable sort. -/
theorem renderSubscriptions_groups (topics : List Topic) (subs : List SubscribePayload)
    (hs : subs ≠ []) (hsafe : ∀ sub ∈ subs, readsInherited topics sub.topic = false) :
    ∃ (fs : List Fragment) (groups : List (JSString × List SubscribePayload)),
      _renderSubscriptions topics subs = .ok (.fragments fs) ∧
      renderedTopics fs = groups.map (fun g => (g.1, g.2.map (fun sub => sub.topic))) ∧
      (∀ g ∈ groups, IsStableSortBy (fun sub => sub.topic)
        (subs.filter (fun sub => decide (getSubscriptionGroup sub = g.1))) g.2) ∧
      (groups.flatMap Prod.snd).Perm subs ∧
      (∀ g ∈ groups, ∀ sub ∈ g.2, getSubscriptionGroup sub = g.1) ∧
      (groups.map Prod.fst).Pairwise (fun a b => strLt a b = true) ∧
      (∀ k, k ∈ groups.map Prod.fst ↔ ∃ sub ∈ subs, getSubscriptionGroup sub = k) ∧
      groups ≠ [] ∧ ∀ g ∈ groups, g.2 ≠ [] :=
  ⟨_, groupsOf subs getSubscriptionGroup (fun sub : SubscribePayload => sub.topic),
    renderSubscriptions_eq topics subs hs hsafe,
    renderedTopics_map _ (fun sub : SubscribePayload => sub.topic) _,
    groupsOf_stable _ _ _, groupsOf_flatMap_perm _ _ _, groupsOf_label _ _ _,
    groupsOf_keys_pairwise _ _ _, mem_groupsOf_keys _ _ _,
    groupsOf_ne_nil _ _ _ hs, groupsOf_group_ne_nil _ _ _⟩

/-- What `_renderPublishers` lists: group by group the input publishers of each
label, sorted by topic with a stable sort. -/
theorem renderPublishers_groups (pubs : List AdvertisePayload) (hp : pubs ≠ []) :
    ∃ (fs : List Fragment) (groups : List (JSString × List AdvertisePayload)),
      _renderPublishers pubs = .fragments fs ∧
      renderedTopics fs = groups.map (fun g => (g.1, g.2.map (fun pub => pub.topic))) ∧
      (∀ g ∈ groups, IsStableSortBy (fun pub => pub.topic)
        (pubs.filter (fun pub => decide (getPublisherGroup pub = g.1))) g.2) ∧
      (groups.flatMap Prod.snd).Perm pubs ∧
      (∀ g ∈ groups, ∀ pub ∈ g.2, getPublisherGroup pub = g.1) ∧
      (groups.map Prod.fst).Pairwise (fun a b => strLt a b = true) ∧
      (∀ k, k ∈ groups.map Prod.fst ↔ ∃ pub ∈ pubs, getPublisherGroup pub = k) ∧
      groups ≠ [] ∧ ∀ g ∈ groups, g.2 ≠ [] :=
  ⟨_, groupsOf pubs getPublisherGroup (fun pub : AdvertisePayload => pub.topic),
    renderPublishers_eq pubs hp,
    renderedTopics_map _ (fun pub : AdvertisePayload => pub.topic) (fun _ => none),
    groupsOf_stable _ _ _, groupsOf_flatMap_perm _ _ _, groupsOf_label _ _ _,
    groupsOf_keys_pairwise _ _ _, mem_groupsOf_keys _ _ _,
    groupsOf_ne_nil _ _ _ hp, groupsOf_group_ne_nil _ _ _⟩

/-! ## The claims -/

/-- C1: the code departs from the claim. One subscription on the topic `constructor`
and no topic of that name: the guard at lines 99-100 passes on the inherited
`Object.prototype.constructor`, the read of `[0].originalTopic` throws, and
`_renderSubscriptions` returns no groups, so the subscription appears in no output. -/
theorem renderSubscriptions_constructor_topic_throws :
    _renderSubscriptions [] [⟨utf16 "constructor", some ⟨utf16 "panel", utf16 "P"⟩⟩]
        = .error "TypeError" ∧
    ¬ ∃ fs, _renderSubscriptions [] [⟨utf16 "constructor", some ⟨utf16 "panel", utf16 "P"⟩⟩]
        = .ok (.fragments fs) :=
  ⟨rfl, fun ⟨_, h⟩ => by cases h⟩

/-- C2: the code departs from the claim. The two subscriptions get the labels
`Node “N1”` and `Panel “P”`, but the second is on the topic `__proto__` with no
topic of that name, so `_renderSubscriptions` throws and renders no label. -/
theorem renderSubscriptions_proto_topic_no_labels :
    getSubscriptionGroup ⟨utf16 "/a", some ⟨utf16 "node", utf16 "N1"⟩⟩ = utf16 "Node “N1”" ∧
    getSubscriptionGroup ⟨utf16 "__proto__", some ⟨utf16 "panel", utf16 "P"⟩⟩
        = utf16 "Panel “P”" ∧
    _renderSubscriptions []
        [⟨utf16 "/a", some ⟨utf16 "node", utf16 "N1"⟩⟩,
         ⟨utf16 "__proto__", some ⟨utf16 "panel", utf16 "P"⟩⟩]
      = .error "TypeError" :=
  ⟨by decide, by decide, rfl⟩

/-- C3: with the topic `/a` present without an `originalTopic`, the line of a
subscription on `/a` is rendered with the text ` (original topic: undefined)`, where
the claim has the topic name alone. -/
theorem renderSubscriptions_undefined_originalTopic :
    _renderSubscriptions [⟨utf16 "/a", none⟩]
        [⟨utf16 "/a", some ⟨utf16 "panel", utf16 "P"⟩⟩]
      = .ok (.fragments [⟨utf16 "Panel “P”", utf16 "Panel “P”:",
          [⟨0, utf16 "/a", some (utf16 " (original topic: undefined)")⟩]⟩]) :=
  rfl

/-- C4 as stated fails: for the name `Foo` none of the three labels is the name between
ASCII double-quote characters (code unit 34). -/
theorem group_label_not_ascii_quoted :
    getSubscriptionGroup ⟨utf16 "/a", some ⟨utf16 "panel", utf16 "Foo"⟩⟩
        ≠ utf16 "Panel " ++ [34] ++ utf16 "Foo" ++ [34] ∧
    getSubscriptionGroup ⟨utf16 "/a", some ⟨utf16 "node", utf16 "Foo"⟩⟩
        ≠ utf16 "Node " ++ [34] ++ utf16 "Foo" ++ [34] ∧
    getPublisherGroup ⟨utf16 "/a", some ⟨utf16 "panel", utf16 "Foo"⟩⟩
        ≠ utf16 "Panel " ++ [34] ++ utf16 "Foo" ++ [34] := by
  decide

/-- C4, amended: for every name `n` the label of a panel requester is `Panel`, a space,
then `n` between the quotation marks U+201C (code unit 8220) and U+201D (code unit
8221); the label of a node requester is `Node`, a space, and `n` between the same
marks; the label of a panel advertiser is that of a panel requester. -/
theorem group_label_curly_quoted (topic n : JSString) :
    getSubscriptionGroup ⟨topic, some ⟨utf16 "panel", n⟩⟩
        = utf16 "Panel " ++ [8220] ++ n ++ [8221] ∧
    getSubscriptionGroup ⟨topic, some ⟨utf16 "node", n⟩⟩
        = utf16 "Node " ++ [8220] ++ n ++ [8221] ∧
    getPublisherGroup ⟨topic, some ⟨utf16 "panel", n⟩⟩
        = utf16 "Panel " ++ [8220] ++ n ++ [8221] := by
  refine ⟨?_, ?_, ?_⟩
  · show utf16 "Panel “" ++ n ++ utf16 "”" = _
    have h1 : utf16 "Panel “" = utf16 "Panel " ++ [8220] := by decide
    have h2 : utf16 "”" = [8221] := by decide
    rw [h1, h2]
  · have hne : ¬ utf16 "node" = utf16 "panel" := by decide
    have h1 : utf16 "Node “" = utf16 "Node " ++ [8220] := by decide
    have h2 : utf16 "”" = [8221] := by decide
    simp only [getSubscriptionGroup, if_neg hne, if_true, h1, h2]
  · show utf16 "Panel “" ++ n ++ utf16 "”" = _
    have h1 : utf16 "Panel “" = utf16 "Panel " ++ [8220] := by decide
    have h2 : utf16 "”" = [8221] := by decide
    rw [h1, h2]

/-- C5: a requester whose type is none of `panel`, `node`, `other` gets the label
`<unknown: {type} {name}>`, and an advertiser whose type is not `panel` (`node` and
`other` included) gets the label of that form; both functions return a label on every
input, and none of their branches throws. -/
theorem unknown_type_label (topic ty name : JSString)
    (h : ty ≠ utf16 "panel" ∧ ty ≠ utf16 "node" ∧ ty ≠ utf16 "other")
    (ptopic pty pname : JSString) (hp : pty ≠ utf16 "panel") :
    getSubscriptionGroup ⟨topic, some ⟨ty, name⟩⟩
        = utf16 "<unknown: " ++ ty ++ utf16 " " ++ name ++ utf16 ">" ∧
    getPublisherGroup ⟨ptopic, some ⟨pty, pname⟩⟩
        = utf16 "<unknown: " ++ pty ++ utf16 " " ++ pname ++ utf16 ">" := by
  constructor
  · simp only [getSubscriptionGroup, if_neg h.1, if_neg h.2.1, if_neg h.2.2]
  · simp only [getPublisherGroup, if_neg hp]

/-- C5, at the requester `{type: "bogus", name: "X"}` and the advertiser
`{type: "node", name: "N"}`. -/
theorem unknown_type_label_witness :
    (utf16 "bogus" ≠ utf16 "panel" ∧ utf16 "bogus" ≠ utf16 "node" ∧
      utf16 "bogus" ≠ utf16 "other") ∧
    utf16 "node" ≠ utf16 "panel" ∧
    getSubscriptionGroup ⟨utf16 "/a", some ⟨utf16 "bogus", utf16 "X"⟩⟩
        = utf16 "<unknown: " ++ utf16 "bogus" ++ utf16 " " ++ utf16 "X" ++ utf16 ">" ∧
    getPublisherGroup ⟨utf16 "/b", some ⟨utf16 "node", utf16 "N"⟩⟩
        = utf16 "<unknown: " ++ utf16 "node" ++ utf16 " " ++ utf16 "N" ++ utf16 ">" :=
  ⟨by decide, by decide,
    unknown_type_label (utf16 "/a") (utf16 "bogus") (utf16 "X") (by decide)
      (utf16 "/b") (utf16 "node") (utf16 "N") (by decide)⟩

/-- C6: the code departs from the claim. The subscriptions list is non-empty, yet the
result is neither the string `(none)` nor an array of groups: on the topic `toString`
with no topic of that name `_renderSubscriptions` throws. -/
theorem renderSubscriptions_toString_topic_no_groups :
    _renderSubscriptions [] [⟨utf16 "toString", none⟩] = .error "TypeError" ∧
    _renderSubscriptions [] [⟨utf16 "toString", none⟩] ≠ .ok (.text (utf16 "(none)")) ∧
    ¬ ∃ fs, _renderSubscriptions [] [⟨utf16 "toString", none⟩] = .ok (.fragments fs) :=
  ⟨rfl, (fun h => by cases h), (fun ⟨_, h⟩ => by cases h)⟩

/-- C7: let `x` be the first entry of the topics list with its name. The list item of
every subscription on that name is produced without a throw and carries the text
` (original topic: ` + the `originalTopic` of `x` (spelled `undefined` when `x` has
none) + `)`, whatever entries follow `x`. Whenever `_renderSubscriptions` returns its
fragments, every subscription on that name has a line under its label, and every line
on that name carries that text; it does return them on a non-empty input in which no
other subscription topic reads an inherited member. Dropping the later entries of
that name from the topics list changes nothing in the result. -/
theorem first_topic_entry_wins (pre post : List Topic) (x : Topic)
    (subs : List SubscribePayload) (hfirst : ∀ t ∈ pre, t.name ≠ x.name) :
    (∀ (sub : SubscribePayload) (i : Nat), sub.topic = x.name →
      renderSubscriptionItem (groupBy (pre ++ x :: post) (fun topic => topic.name)) sub i
        = .ok ⟨i, x.name, 
          some (utf16 " (original topic: " ++ x.originalTopic.getD (utf16 "undefined") ++ utf16 ")")⟩) ∧
    (∀ fs, _renderSubscriptions (pre ++ x :: post) subs = .ok (.fragments fs) →
      (∀ sub ∈ subs, sub.topic = x.name →
        ∃ f ∈ fs, f.key = getSubscriptionGroup sub ∧ ∃ li ∈ f.items, li.topic = x.name) ∧
      (∀ f ∈ fs, ∀ li ∈ f.items, li.topic = x.name → li.originalTopicText = 
          some (utf16 " (original topic: " ++ x.originalTopic.getD (utf16 "undefined") ++ utf16 ")"))) ∧
    (subs ≠ [] → (∀ sub ∈ subs, readsInherited (pre ++ x :: post) sub.topic = false) →
      ∃ fs, _renderSubscriptions (pre ++ x :: post) subs = .ok (.fragments fs)) ∧
    _renderSubscriptions (pre ++ x :: post.filter (fun t => decide (t.name ≠ x.name))) subs
      = _renderSubscriptions (pre ++ x :: post) subs := by
  have htext : originalTopicTextOf (pre ++ x :: post) x.name = 
          some (utf16 " (original topic: " ++ x.originalTopic.getD (utf16 "undefined") ++ utf16 ")") := by
    rw [originalTopicTextOf_first pre post x hfirst, interpolate_eq_getD]
  have hread : readsInherited (pre ++ x :: post) x.name = false := by
    have hpre : pre.find? (fun t => decide (t.name = x.name)) = none := by
      rw [List.find?_eq_none]
      intro t ht
      simpa using hfirst t ht
    simp [readsInherited, List.find?_append, hpre, List.find?_cons]
  refine ⟨?_, ?_, ?_, ?_⟩
  · intro sub i hsub
    rw [renderSubscriptionItem_groupBy, hsub, hread, htext]
    rfl
  · intro fs hfs
    obtain ⟨hs, hsafe⟩ := renderSubscriptions_ok _ _ _ hfs
    rw [renderSubscriptions_eq _ subs hs hsafe] at hfs
    injection hfs with hfs
    injection hfs with hfs
    subst hfs
    constructor
    · intro sub hsub htopic
      have hkey : getSubscriptionGroup sub
          ∈ (groupsOf subs getSubscriptionGroup (fun sub => sub.topic)).map Prod.fst :=
        (mem_groupsOf_keys _ _ _ _).2 ⟨sub, hsub, rfl⟩
      obtain ⟨g, hg, hg1⟩ := List.mem_map.1 hkey
      have hmem : sub ∈ g.2 := by
        rw [mem_groupsOf _ _ _ g hg, (sortBy_perm _ _).mem_iff, List.mem_filter]
        exact ⟨hsub, by simpa using hg1.symm⟩
      obtain ⟨j, hj⟩ := mem_arrayMap_of_mem (fun (sub : SubscribePayload) i =>
        ListItem.mk i sub.topic (originalTopicTextOf (pre ++ x :: post) sub.topic)) g.2 0 sub hmem
      exact ⟨_, List.mem_map_of_mem _ hg, hg1, _, hj, htopic⟩
    · intro f hf li hli htopic
      obtain ⟨g, _, rfl⟩ := List.mem_map.1 hf
      obtain ⟨sub, _, j, rfl⟩ := mem_arrayMap _ _ _ _ hli
      simp only at htopic ⊢
      rw [htopic]
      exact htext
  · intro hs hsafe
    exact ⟨_, renderSubscriptions_eq _ subs hs hsafe⟩
  · unfold _renderSubscriptions
    simp only [renderSubscriptionItem_later]

/-- C7, at the example topics, whose two entries share the name `/a`, and the example
subscriptions, two of which are on `/a`: both lines on `/a` read
` (original topic: /orig_a)`. -/
theorem first_topic_entry_wins_witness :
    (∀ t ∈ ([] : List Topic), t.name ≠ utf16 "/a") ∧
    _renderSubscriptions exampleTopics exampleSubscriptions
      = .ok (.fragments
          [⟨utf16 "Node “N1”", utf16 "Node “N1”:",
              [⟨0, utf16 "/a", some (utf16 " (original topic: /orig_a)")⟩,
               ⟨1, utf16 "/b", none⟩]⟩,
           ⟨utf16 "Panel “P”", utf16 "Panel “P”:",
              [⟨0, utf16 "/a", some (utf16 " (original topic: /orig_a)")⟩]⟩]) ∧
    (∀ sub ∈ exampleSubscriptions, sub.topic = utf16 "/a" →
      ∃ f ∈ ([⟨utf16 "Node “N1”", utf16 "Node “N1”:",
              [⟨0, utf16 "/a", some (utf16 " (original topic: /orig_a)")⟩,
               ⟨1, utf16 "/b", none⟩]⟩,
           ⟨utf16 "Panel “P”", utf16 "Panel “P”:",
              [⟨0, utf16 "/a", some (utf16 " (original topic: /orig_a)")⟩]⟩] : List Fragment),
        f.key = getSubscriptionGroup sub ∧ ∃ li ∈ f.items, li.topic = utf16 "/a") ∧
    (∀ f ∈ ([⟨utf16 "Node “N1”", utf16 "Node “N1”:",
              [⟨0, utf16 "/a", some (utf16 " (original topic: /orig_a)")⟩,
               ⟨1, utf16 "/b", none⟩]⟩,
           ⟨utf16 "Panel “P”", utf16 "Panel “P”:",
              [⟨0, utf16 "/a", some (utf16 " (original topic: /orig_a)")⟩]⟩] : List Fragment),
      ∀ li ∈ f.items, li.topic = utf16 "/a" →
        li.originalTopicText = some (utf16 " (original topic: /orig_a)")) :=
  ⟨by simp, rfl,
    ((first_topic_entry_wins [] [⟨utf16 "/a", some (utf16 "/later_a")⟩]
      ⟨utf16 "/a", some (utf16 "/orig_a")⟩ exampleSubscriptions (by simp)).2.1 _ rfl).1,
    ((first_topic_entry_wins [] [⟨utf16 "/a", some (utf16 "/later_a")⟩]
      ⟨utf16 "/a", some (utf16 "/orig_a")⟩ exampleSubscriptions (by simp)).2.1 _ rfl).2⟩

/-- C8: a subscription without requester and a publisher without advertiser both get
the label `<unknown>`, a string of nine code units. -/
theorem absent_origin_label (topic : JSString) :
    getSubscriptionGroup ⟨topic, none⟩ = utf16 "<unknown>" ∧
    getPublisherGroup ⟨topic, none⟩ = utf16 "<unknown>" ∧
    utf16 "<unknown>" = [60, 117, 110, 107, 110, 111, 119, 110, 62] ∧
    (utf16 "<unknown>").length = 9 :=
  ⟨rfl, rfl, by decide, by decide⟩

/-- C9: a requester of type `other` gets its name as the label, unchanged. -/
theorem other_requester_label (topic n : JSString) :
    getSubscriptionGroup ⟨topic, some ⟨utf16 "other", n⟩⟩ = n := by
  have h1 : ¬ utf16 "other" = utf16 "panel" := by decide
  have h2 : ¬ utf16 "other" = utf16 "node" := by decide
  simp only [getSubscriptionGroup, if_neg h1, if_neg h2, if_true]

/-- C10: `getSubscriptionGroup` is not injective on requesters. The requesters
`{type: "a b", name: "c"}` and `{type: "a", name: "b c"}` differ, both take the
fallback branch, both get the label `<unknown: a b c>`, and their subscriptions are
rendered as one group of two lines. A requester of type `other` whose name is the
label of any subscription gets that same label; so `{type: "other"}` named
`Panel “x”` collides with the panel requester named `x`. -/
theorem getSubscriptionGroup_not_injective :
    (∃ r1 r2 : Requester, r1 ≠ r2 ∧
      (r1.type ≠ utf16 "panel" ∧ r1.type ≠ utf16 "node" ∧ r1.type ≠ utf16 "other") ∧
      (r2.type ≠ utf16 "panel" ∧ r2.type ≠ utf16 "node" ∧ r2.type ≠ utf16 "other") ∧
      getSubscriptionGroup ⟨utf16 "/x", some r1⟩ = utf16 "<unknown: a b c>" ∧
      getSubscriptionGroup ⟨utf16 "/y", some r2⟩ = utf16 "<unknown: a b c>" ∧
      _renderSubscriptions [] [⟨utf16 "/x", some r1⟩, ⟨utf16 "/y", some r2⟩]
        = .ok (.fragments [⟨utf16 "<unknown: a b c>", utf16 "<unknown: a b c>:",
            [⟨0, utf16 "/x", none⟩, ⟨1, utf16 "/y", none⟩]⟩])) ∧
    (∀ (sub : SubscribePayload) (topic : JSString),
      getSubscriptionGroup ⟨topic, some ⟨utf16 "other", getSubscriptionGroup sub⟩⟩
        = getSubscriptionGroup sub) ∧
    (∃ r1 r2 : Requester, r1.type = utf16 "other" ∧ r2.type = utf16 "panel" ∧
      getSubscriptionGroup ⟨utf16 "/x", some r1⟩ = getSubscriptionGroup ⟨utf16 "/y", some r2⟩ ∧
      ∃ f, _renderSubscriptions [] [⟨utf16 "/x", some r1⟩, ⟨utf16 "/y", some r2⟩]
        = .ok (.fragments [f])) := by
  refine ⟨⟨⟨utf16 "a b", utf16 "c"⟩, ⟨utf16 "a", utf16 "b c"⟩,
      by decide, by decide, by decide, by decide, by decide, rfl⟩, ?_,
    ⟨⟨utf16 "other", utf16 "Panel “x”"⟩, ⟨utf16 "panel", utf16 "x"⟩, rfl, rfl,
      by decide, _, rfl⟩⟩
  intro sub topic
  have h1 : ¬ utf16 "other" = utf16 "panel" := by decide
  have h2 : ¬ utf16 "other" = utf16 "node" := by decide
  simp only [getSubscriptionGroup, if_neg h1, if_neg h2, if_true]


end Internals
